import Mathlib

/-!
Verification of the task-tracker persistence and mutation engine
(`src/tasktracker/tasks.py`): the `Task` record and the `Manager` class with
its operations `load_tasks`, `save_tasks`, `add_task`, `delete_task`,
`update_task` and `status`.

Modelling conventions:
* Timestamps (`createdAt`, `updatedAt`) are produced by
  `datetime.now().strftime('%Y-%m-%d %H:%M:%S')`; that format is
  order-isomorphic to the time it encodes, so timestamps are modelled as
  natural numbers and the current time is passed to each operation as an
  explicit `now` argument.
* `uuid.uuid4()` is modelled by passing the generated identifier as an
  explicit argument (`id` to `add_task`, an environment `env : Nat → String`
  giving the identifier generated for the k-th loaded record to
  `load_tasks`).
* Python exceptions become `Except String` results.  Each `Manager` method
  returns the pair of its result and the manager state after the call, so
  "raises and leaves the state unchanged" is `(Except.error e, m)`.
* The backing JSON file is modelled by `StoreContent`: syntactically invalid
  content is `corrupt`, the well-formed-but-empty `{}` object is
  `emptyObject`, and an array of task records is `records`.  A record's
  optional fields (`id`, `index`, `createdAt`, `updatedAt`) are `Option`s,
  mirroring `task_data.get(..., default)` in `load_tasks`.
-/

deriving instance DecidableEq for Except

namespace TaskTracker

/-- Python `s.lower()`: character-wise lower-casing.  (Defined over the
character list so that it reduces definitionally; `String.toLower` is the
same map.) -/
def lower (s : String) : String := ⟨s.data.map Char.toLower⟩

/-- Python `not s.strip()`: true exactly when `s` contains no non-whitespace
character, i.e. when `s.strip()` is the empty (falsy) string. -/
def isBlank (s : String) : Bool := s.data.all fun c => c.isWhitespace

/-- The `Task` dataclass of `tasks.py` (lines 9-38). -/
structure Task where
  description : String
  status : String
  id : String
  index : Int
  createdAt : Nat
  updatedAt : Nat
deriving Repr, DecidableEq

/-- `Task(description, status)`: construction with a freshly generated `id`,
`index = 0`, `createdAt = now`, and `__post_init__` setting
`updatedAt = createdAt` (lines 23-30). -/
def mkTask (description status id : String) (now : Nat) : Task :=
  { description := description
    status := status
    id := id
    index := 0
    createdAt := now
    updatedAt := now }

/-- One serialized task record in the JSON store.  `description` and `status`
are accessed with mandatory indexing (`task_data['description']`), the other
four with `task_data.get(..., default)`, hence the `Option`s. -/
structure Record where
  description : String
  status : String
  id : Option String
  index : Option Int
  createdAt : Option Nat
  updatedAt : Option Nat
deriving Repr, DecidableEq

/-- Content of the backing store file. -/
inductive StoreContent where
  | corrupt : StoreContent
  | emptyObject : StoreContent
  | records : List Record → StoreContent
deriving Repr, DecidableEq

/-- The `Manager` state: the in-memory task list and the backing store. -/
structure Manager where
  tasks : List Task
  store : StoreContent
deriving Repr, DecidableEq

/-- Deserialization of one record inside `load_tasks` (lines 90-99): build
`Task(description, status)` with generated id `freshId` and construction time
`now`, then overwrite each field present in the record.  The `updatedAt`
default is the construction-time `createdAt`, i.e. `now`. -/
def taskOfRecord (freshId : String) (now : Nat) (r : Record) : Task :=
  { description := r.description
    status := r.status
    id := r.id.getD freshId
    index := r.index.getD 0
    createdAt := r.createdAt.getD now
    updatedAt := r.updatedAt.getD now }

/-- The deserialization loop of `load_tasks`: the k-th record receives the
k-th generated identifier `env k`. -/
def loadRecords (env : Nat → String) (now : Nat) : Nat → List Record → List Task
  | _, [] => []
  | k, r :: rs => taskOfRecord (env k) now r :: loadRecords env now (k + 1) rs

/-- `Manager.load_tasks` (lines 61-103) on an existing store file: a
`json.JSONDecodeError` resets the in-memory list to empty and rewrites the
store as an empty array; an empty JSON object is treated as an empty list
(store untouched); otherwise every record is deserialized in order.  Returns
the loaded task list and the store content after the call. -/
def load_tasks (env : Nat → String) (now : Nat) :
    StoreContent → List Task × StoreContent
  | .corrupt => ([], .records [])
  | .emptyObject => ([], .emptyObject)
  | .records rs => (loadRecords env now 0 rs, .records rs)

/-- `Manager.__init__` (lines 51-59): start empty and load eagerly. -/
def mkManager (env : Nat → String) (now : Nat) (s : StoreContent) : Manager :=
  { tasks := (load_tasks env now s).1
    store := (load_tasks env now s).2 }

/-- `asdict(task)` inside `save_tasks`: every field is serialized. -/
def recordOfTask (t : Task) : Record :=
  { description := t.description
    status := t.status
    id := some t.id
    index := some t.index
    createdAt := some t.createdAt
    updatedAt := some t.updatedAt }

/-- `Manager.save_tasks` (lines 105-117): full rewrite of the store with the
current task list. -/
def Manager.save_tasks (m : Manager) : Manager :=
  { tasks := m.tasks, store := .records (m.tasks.map recordOfTask) }

/-- The enumerated status values of `add_task` line 138. -/
def statusValues : List String := ["todo", "in-progress", "done"]

/-- The `max_index` computation of `add_task` lines 143-146:
`self.tasks[-1].index if self.tasks else 0`, i.e. the last element's index,
`0` for an empty collection. -/
def lastIndex (m : Manager) : Int :=
  match m.tasks.getLast? with
  | some t => t.index
  | none => 0

/-- `Manager.add_task` (lines 119-154): lower-case the status, validate the
description and the status, then build the task, set its index to the last
element's index plus one (0 plus one on an empty list), append, save. -/
def Manager.add_task (m : Manager) (description : String) (status : String)
    (id : String) (now : Nat) : Except String Task × Manager :=
  let status := lower status
  if isBlank description then
    (Except.error "Task description cannot be empty", m)
  else if statusValues.contains status = false then
    (Except.error ("Invalid status: " ++ status), m)
  else
    let max_index : Int := lastIndex m
    let task : Task := { mkTask description status id now with index := max_index + 1 }
    (Except.ok task, Manager.save_tasks { tasks := m.tasks ++ [task], store := m.store })

/-- The scan of `delete_task` lines 168-172: pop the first task whose `index`
equals the argument, returning it with the remaining list. -/
def removeFirst (i : Int) : List Task → Option (Task × List Task)
  | [] => none
  | t :: ts =>
    if t.index = i then some (t, ts)
    else
      match removeFirst i ts with
      | some p => some (p.1, t :: p.2)
      | none => none

/-- `Manager.delete_task` (lines 156-173). -/
def Manager.delete_task (m : Manager) (task_index : Int) :
    Except String Task × Manager :=
  match removeFirst task_index m.tasks with
  | some p =>
    (Except.ok p.1, Manager.save_tasks { tasks := p.2, store := m.store })
  | none => (Except.error ("No task found with index " ++ toString task_index), m)

/-- The body of the `update_task` loop (lines 191-195): apply the provided
fields (`status` lower-cased) and stamp `updatedAt` with the current time. -/
def applyUpdate (description : Option String) (status : Option String)
    (now : Nat) (t : Task) : Task :=
  let t1 :=
    match description with
    | some d => { t with description := d }
    | none => t
  let t2 :=
    match status with
    | some s => { t1 with status := lower s }
    | none => t1
  { t2 with updatedAt := now }

/-- The scan of `update_task`: transform the first task whose `index` matches,
in place, returning the updated task with the updated list. -/
def updateFirst (i : Int) (f : Task → Task) : List Task → Option (Task × List Task)
  | [] => none
  | t :: ts =>
    if t.index = i then some (f t, f t :: ts)
    else
      match updateFirst i f ts with
      | some p => some (p.1, t :: p.2)
      | none => none

/-- `Manager.update_task` (lines 175-199) with the `kwargs` represented as the
two optional fields `description` and `status`. -/
def Manager.update_task (m : Manager) (task_index : Int)
    (description : Option String) (status : Option String) (now : Nat) :
    Except String Task × Manager :=
  match updateFirst task_index (applyUpdate description status now) m.tasks with
  | some p =>
    (Except.ok p.1, Manager.save_tasks { tasks := p.2, store := m.store })
  | none => (Except.error ("No task found with index " ++ toString task_index), m)

/-- `Manager.status` (lines 201-222): exact string dispatch on the command,
before any index lookup. -/
def Manager.status (m : Manager) (task_index : Int) (status : String)
    (now : Nat) : Except String Task × Manager :=
  if status = "mark-done" then m.update_task task_index none (some "done") now
  else if status = "mark-todo" then m.update_task task_index none (some "todo") now
  else if status = "mark-in-progress" then
    m.update_task task_index none (some "in-progress") now
  else (Except.error ("Invalid status command: " ++ status), m)

/-- `Manager.get_all_tasks` (lines 224-230). -/
def Manager.get_all_tasks (m : Manager) : List Task := m.tasks

/-- `Manager.list_by_arg` (lines 240-256), the returned value. -/
def Manager.list_by_arg (m : Manager) (status_filter : String) : List Task :=
  m.tasks.filter (fun t => t.status = status_filter)

/-- A manager over a fresh (empty-array) store, as `__init__` produces when
the file did not exist yet. -/
def emptyManager : Manager := { tasks := [], store := .records [] }

/-! ### Operation sequences (for the index-assignment claims) -/

/-- One engine call in a run: an `add` (with the environment-chosen id and
clock value) or a `delete`. -/
inductive Op where
  | addOp (description status id : String) (now : Nat)
  | delOp (index : Int)
deriving Repr, DecidableEq

/-- The manager state after one call (failed calls leave it unchanged). -/
def stepOp (m : Manager) : Op → Manager
  | .addOp d s id now => (m.add_task d s id now).2
  | .delOp i => (m.delete_task i).2

/-- The indices assigned by the successful `add` calls of a run, in order. -/
def assignedIndices (m : Manager) : List Op → List Int
  | [] => []
  | .addOp d s id now :: rest =>
    (match (m.add_task d s id now).1 with
     | .ok t => [t.index]
     | .error _ => []) ++ assignedIndices (stepOp m (.addOp d s id now)) rest
  | .delOp i :: rest => assignedIndices (stepOp m (.delOp i)) rest

/-- Valid `add` input: non-blank description, recognized status. -/
def validAdd (description status : String) : Bool :=
  !isBlank description && statusValues.contains (lower status)

/-- Every `add` call of the run has valid input. -/
def validAdds : List Op → Bool
  | [] => true
  | .addOp d s _ _ :: rest => validAdd d s && validAdds rest
  | .delOp _ :: rest => validAdds rest

/-- The delete does not target the task currently last in the collection. -/
def safeDel (m : Manager) (i : Int) : Bool :=
  match m.tasks.getLast? with
  | none => true
  | some t => t.index != i

/-- Every `delete` call of the run, at the state where it runs, leaves the
last element of the collection in place. -/
def safeDeletes : Manager → List Op → Bool
  | _, [] => true
  | m, .addOp d s id now :: rest => safeDeletes (stepOp m (.addOp d s id now)) rest
  | m, .delOp i :: rest => safeDel m i && safeDeletes (stepOp m (.delOp i)) rest

/-- Number of `add` calls in a run. -/
def countAdds : List Op → Nat
  | [] => 0
  | .addOp _ _ _ _ :: rest => countAdds rest + 1
  | .delOp _ :: rest => countAdds rest

/-- `seqFrom k n = [k, k+1, ..., k+n-1]`. -/
def seqFrom : Int → Nat → List Int
  | _, 0 => []
  | k, n + 1 => k :: seqFrom (k + 1) n

/-! ### Runs of `add` calls (for the persistence round-trip claim) -/

/-- Input of one `add` call, with the environment-chosen id and clock. -/
structure AddInput where
  description : String
  status : String
  id : String
  now : Nat
deriving Repr, DecidableEq

/-- Perform a list of `add` calls in order (failed ones change nothing). -/
def runAdds (m : Manager) : List AddInput → Manager
  | [] => m
  | a :: rest => runAdds (m.add_task a.description a.status a.id a.now).2 rest

/-- Every input in the list is valid. -/
def validInputs : List AddInput → Bool
  | [] => true
  | a :: rest => validAdd a.description a.status && validInputs rest

/-! ### Derived notions used in the statements -/

/-- The task a successful `add_task` call constructs. -/
def addedTask (m : Manager) (description status id : String) (now : Nat) : Task :=
  { description := description
    status := lower status
    id := id
    index := lastIndex m + 1
    createdAt := now
    updatedAt := now }

/-- The store holds exactly the serialized in-memory collection (the state
`save_tasks` establishes). -/
def Saved (m : Manager) : Prop :=
  m.store = .records (m.tasks.map recordOfTask)

/-- Every task's status is one of the enumerated values. -/
def statusInvariant (m : Manager) : Prop :=
  ∀ t ∈ m.tasks, t.status ∈ statusValues

/-- Every task's description is non-empty (not blank). -/
def descrInvariant (m : Manager) : Prop :=
  ∀ t ∈ m.tasks, isBlank t.description = false

/-! ## Helper lemmas -/

theorem validAdd_split {d s : String} (h : validAdd d s = true) :
    isBlank d = false ∧ statusValues.contains (lower s) = true := by
  rwa [validAdd, Bool.and_eq_true, Bool.not_eq_true'] at h

/-- A successful `add_task` call, fully characterized. -/
theorem add_task_ok (m : Manager) (d s id : String) (now : Nat)
    (h : validAdd d s = true) :
    m.add_task d s id now =
      (Except.ok (addedTask m d s id now),
       { tasks := m.tasks ++ [addedTask m d s id now],
         store := .records ((m.tasks ++ [addedTask m d s id now]).map recordOfTask) }) := by
  obtain ⟨h1, h2⟩ := validAdd_split h
  have hmem : lower s ∈ statusValues := by simpa using h2
  simp [Manager.add_task, Manager.save_tasks, mkTask, addedTask, h1, hmem]

/-- After a successful `add_task`, the last element's index is the one just
assigned. -/
theorem lastIndex_add (m : Manager) (d s id : String) (now : Nat)
    (h : validAdd d s = true) :
    lastIndex (m.add_task d s id now).2 = lastIndex m + 1 := by
  rw [add_task_ok m d s id now h]
  simp [lastIndex, List.getLast?_concat, addedTask]

/-- A failed `add_task` call leaves the manager unchanged. -/
theorem add_task_fail (m : Manager) (d s id : String) (now : Nat)
    (h : ¬ validAdd d s = true) : (m.add_task d s id now).2 = m := by
  rw [validAdd, Bool.and_eq_true, Bool.not_eq_true'] at h
  push_neg at h
  by_cases h1 : isBlank d = true
  · simp [Manager.add_task, h1]
  · rw [Bool.not_eq_true] at h1
    have h2 : lower s ∉ statusValues := fun hmem => h h1 (by simpa using hmem)
    simp [Manager.add_task, h1, h2]

/-- If no task carries index `i`, the `delete_task`/`update_task` scan finds
nothing. -/
theorem removeFirst_eq_none (i : Int) :
    ∀ l : List Task, (∀ t ∈ l, t.index ≠ i) → removeFirst i l = none := by
  intro l
  induction l with
  | nil => intro _; rfl
  | cons t ts ih =>
    intro h
    simp only [removeFirst]
    rw [if_neg (h t (List.mem_cons_self t ts)),
      ih fun u hu => h u (List.mem_cons_of_mem t hu)]

/-- The scan pops exactly the first task carrying index `i`. -/
theorem removeFirst_eq_some (i : Int) :
    ∀ (pre suf : List Task) (t0 : Task), t0.index = i → (∀ t ∈ pre, t.index ≠ i) →
      removeFirst i (pre ++ t0 :: suf) = some (t0, pre ++ suf) := by
  intro pre
  induction pre with
  | nil =>
    intro suf t0 h0 _
    simp [removeFirst, h0]
  | cons t ts ih =>
    intro suf t0 h0 hpre
    have hne : t.index ≠ i := hpre t (List.mem_cons_self t ts)
    have hih := ih suf t0 h0 fun u hu => hpre u (List.mem_cons_of_mem t hu)
    simp only [List.cons_append, removeFirst, if_neg hne, List.append_eq, hih]

/-- Every task surviving a successful scan-and-pop was already present. -/
theorem removeFirst_mem (i : Int) :
    ∀ (l : List Task) (p : Task × List Task), removeFirst i l = some p →
      p.1 ∈ l ∧ ∀ t ∈ p.2, t ∈ l := by
  intro l
  induction l with
  | nil => intro p h; simp [removeFirst] at h
  | cons t ts ih =>
    intro p h
    simp only [removeFirst] at h
    by_cases ht : t.index = i
    · rw [if_pos ht] at h
      cases h
      exact ⟨List.mem_cons_self t ts, fun u hu => List.mem_cons_of_mem t hu⟩
    · rw [if_neg ht] at h
      cases hrec : removeFirst i ts with
      | none => rw [hrec] at h; cases h
      | some q =>
        rw [hrec] at h
        cases h
        obtain ⟨h1, h2⟩ := ih q hrec
        refine ⟨List.mem_cons_of_mem t h1, ?_⟩
        intro u hu
        rcases List.mem_cons.mp hu with h | h
        · exact h ▸ List.mem_cons_self t ts
        · exact List.mem_cons_of_mem t (h2 u h)

/-- If no task carries index `i`, the `update_task` scan finds nothing. -/
theorem updateFirst_eq_none (i : Int) (f : Task → Task) :
    ∀ l : List Task, (∀ t ∈ l, t.index ≠ i) → updateFirst i f l = none := by
  intro l
  induction l with
  | nil => intro _; rfl
  | cons t ts ih =>
    intro h
    simp only [updateFirst]
    rw [if_neg (h t (List.mem_cons_self t ts)),
      ih fun u hu => h u (List.mem_cons_of_mem t hu)]

/-- The scan transforms exactly the first task carrying index `i`. -/
theorem updateFirst_eq_some (i : Int) (f : Task → Task) :
    ∀ (pre suf : List Task) (t0 : Task), t0.index = i → (∀ t ∈ pre, t.index ≠ i) →
      updateFirst i f (pre ++ t0 :: suf) = some (f t0, pre ++ f t0 :: suf) := by
  intro pre
  induction pre with
  | nil =>
    intro suf t0 h0 _
    simp [updateFirst, h0]
  | cons t ts ih =>
    intro suf t0 h0 hpre
    have hne : t.index ≠ i := hpre t (List.mem_cons_self t ts)
    have hih := ih suf t0 h0 fun u hu => hpre u (List.mem_cons_of_mem t hu)
    simp only [List.cons_append, updateFirst, if_neg hne, List.append_eq, hih]

/-- Every task in the collection after a successful scan-and-update is either
an original task or the image of an original task under the update. -/
theorem updateFirst_mem (i : Int) (f : Task → Task) :
    ∀ (l : List Task) (p : Task × List Task), updateFirst i f l = some p →
      ∀ t ∈ p.2, t ∈ l ∨ ∃ t0 ∈ l, t = f t0 := by
  intro l
  induction l with
  | nil => intro p h; simp [updateFirst] at h
  | cons t ts ih =>
    intro p h
    simp only [updateFirst] at h
    by_cases ht : t.index = i
    · rw [if_pos ht] at h
      cases h
      intro u hu
      rcases List.mem_cons.mp hu with h | h
      · exact Or.inr ⟨t, List.mem_cons_self t ts, h⟩
      · exact Or.inl (List.mem_cons_of_mem t h)
    · rw [if_neg ht] at h
      cases hrec : updateFirst i f ts with
      | none => rw [hrec] at h; cases h
      | some q =>
        rw [hrec] at h
        cases h
        intro u hu
        rcases List.mem_cons.mp hu with h | h
        · exact Or.inl (h ▸ List.mem_cons_self t ts)
        · rcases ih q hrec u h with h' | ⟨t0, ht0, h'⟩
          · exact Or.inl (List.mem_cons_of_mem t h')
          · exact Or.inr ⟨t0, List.mem_cons_of_mem t ht0, h'⟩

/-- `update_task` with only a recognized status value keeps every status
inside the enumerated set. -/
theorem update_status_keeps_enum (m : Manager) (h : statusInvariant m)
    (v : String) (hv : lower v ∈ statusValues) (i : Int) (now : Nat) :
    statusInvariant (m.update_task i none (some v) now).2 := by
  cases hupd : updateFirst i (applyUpdate none (some v) now) m.tasks with
  | none => simpa only [Manager.update_task, hupd] using h
  | some p =>
    simp only [Manager.update_task, hupd, Manager.save_tasks, statusInvariant]
    intro t ht
    rcases updateFirst_mem i (applyUpdate none (some v) now) m.tasks p hupd t ht with
      h1 | ⟨t0, _, rfl⟩
    · exact h t h1
    · simpa [applyUpdate] using hv

/-! ## C2 -/

/-- C2 fails as stated: over a collection loaded from a reordered
(hand-edited) store whose last task does not carry the maximum index, `add`
assigns last-index + 1 (here 3), not maximum + 1 (here 6). -/
theorem C2_counterexample :
    ((mkManager (fun _ => "u") 0
      (StoreContent.records
        [{ description := "p", status := "todo", id := some "a", index := some 5,
           createdAt := some 0, updatedAt := some 0 },
         { description := "q", status := "todo", id := some "b", index := some 2,
           createdAt := some 0, updatedAt := some 0 }])).add_task "c" "todo" "u2" 7).1 =
      Except.ok { description := "c", status := "todo", id := "u2", index := 3,
                  createdAt := 7, updatedAt := 7 } ∧
    (∀ t ∈ (mkManager (fun _ => "u") 0
      (StoreContent.records
        [{ description := "p", status := "todo", id := some "a", index := some 5,
           createdAt := some 0, updatedAt := some 0 },
         { description := "q", status := "todo", id := some "b", index := some 2,
           createdAt := some 0, updatedAt := some 0 }])).tasks, t.index ≤ 5) ∧
    (3 : Int) ≠ 5 + 1 := by
  decide

/-- C2 (amended): a successful `add` assigns the new task the index equal to
the index of the *last* task in the collection plus 1 (1 when the collection
is empty), appends it at the end, persists, and returns it. -/
theorem C2_add_assigns_last_plus_one (m : Manager) (d s id : String) (now : Nat)
    (h : validAdd d s = true) :
    m.add_task d s id now =
      (Except.ok (addedTask m d s id now),
       { tasks := m.tasks ++ [addedTask m d s id now],
         store := .records ((m.tasks ++ [addedTask m d s id now]).map recordOfTask) }) ∧
    (addedTask m d s id now).index = lastIndex m + 1 ∧
    (m.tasks = [] → (addedTask m d s id now).index = 1) := by
  refine ⟨add_task_ok m d s id now h, rfl, ?_⟩
  intro he
  simp [addedTask, lastIndex, he]

/-- C2 (amended) at a concrete input: the first `add` on an empty collection
yields index 1, appends and persists. -/
theorem C2_add_assigns_last_plus_one_witness :
    emptyManager.add_task "buy milk" "todo" "u1" 3 =
      (Except.ok (addedTask emptyManager "buy milk" "todo" "u1" 3),
       { tasks := emptyManager.tasks ++ [addedTask emptyManager "buy milk" "todo" "u1" 3],
         store := .records ((emptyManager.tasks ++
           [addedTask emptyManager "buy milk" "todo" "u1" 3]).map recordOfTask) }) ∧
    (addedTask emptyManager "buy milk" "todo" "u1" 3).index = lastIndex emptyManager + 1 ∧
    (emptyManager.tasks = [] → (addedTask emptyManager "buy milk" "todo" "u1" 3).index = 1) :=
  C2_add_assigns_last_plus_one emptyManager "buy milk" "todo" "u1" 3 (by decide)

/-! ## C3 -/

/-- C3 fails as stated: a successful `update` can store an empty description
(the update path performs no description validation). -/
theorem C3_counterexample :
    ((emptyManager.add_task "hello" "todo" "u" 0).2.update_task 1 (some "") none 5).1 =
      Except.ok { description := "", status := "todo", id := "u", index := 1,
                  createdAt := 0, updatedAt := 5 } ∧
    ((emptyManager.add_task "hello" "todo" "u" 0).2.update_task 1
        (some "") none 5).2.tasks.map Task.description = [""] ∧
    isBlank "" = true := by
  decide

/-- C3 (amended): `add` never stores a blank description, so it preserves the
all-descriptions-non-empty invariant; `update` does not validate descriptions
and a successful update can leave a blank one. -/
theorem C3_add_preserves_descriptions (m : Manager) (d s id : String)
    (now : Nat) (h : descrInvariant m) :
    descrInvariant (m.add_task d s id now).2 := by
  by_cases hv : validAdd d s = true
  · rw [add_task_ok m d s id now hv]
    intro t ht
    rcases List.mem_append.mp ht with h1 | h1
    · exact h t h1
    · have ht' : t = addedTask m d s id now := by simpa using h1
      subst ht'
      exact (validAdd_split hv).1
  · rw [add_task_fail m d s id now hv]
    exact h

/-- C3 (amended) at a concrete input. -/
theorem C3_add_preserves_descriptions_witness :
    descrInvariant (emptyManager.add_task "hello" "todo" "u" 0).2 :=
  C3_add_preserves_descriptions emptyManager "hello" "todo" "u" 0
    (by intro t ht; cases ht)

/-! ## C4 -/

/-- C4 fails as stated: a successful `update` stores the lower-cased provided
status without checking membership in the enumerated set. -/
theorem C4_counterexample :
    ((emptyManager.add_task "hello" "todo" "u" 0).2.update_task 1
        none (some "BOGUS") 5).1 =
      Except.ok { description := "hello", status := "bogus", id := "u", index := 1,
                  createdAt := 0, updatedAt := 5 } ∧
    ((emptyManager.add_task "hello" "todo" "u" 0).2.update_task 1
        none (some "BOGUS") 5).2.tasks.map Task.status = ["bogus"] ∧
    "bogus" ∉ statusValues := by
  decide

/-- C4 (amended): `add`, `delete` and the `status` command preserve the
invariant that every task's status lies in the enumerated set; `update`
stores the lower-cased provided status without validating membership. -/
theorem C4_status_enum_preserved (m : Manager) (h : statusInvariant m) :
    (∀ d s id now, statusInvariant (m.add_task d s id now).2) ∧
    (∀ i, statusInvariant (m.delete_task i).2) ∧
    (∀ i cmd now, statusInvariant (m.status i cmd now).2) := by
  refine ⟨?_, ?_, ?_⟩
  · intro d s id now
    by_cases hv : validAdd d s = true
    · rw [add_task_ok m d s id now hv]
      intro t ht
      rcases List.mem_append.mp ht with h1 | h1
      · exact h t h1
      · have ht' : t = addedTask m d s id now := by simpa using h1
        subst ht'
        have h2 := (validAdd_split hv).2
        simpa [addedTask] using h2
    · rw [add_task_fail m d s id now hv]
      exact h
  · intro i
    cases hrem : removeFirst i m.tasks with
    | none => simpa only [Manager.delete_task, hrem] using h
    | some p =>
      simp only [Manager.delete_task, hrem, Manager.save_tasks, statusInvariant]
      intro t ht
      exact h t ((removeFirst_mem i m.tasks p hrem).2 t ht)
  · intro i cmd now
    by_cases h1 : cmd = "mark-done"
    · simp only [Manager.status, h1, if_pos]
      exact update_status_keeps_enum m h "done" (by decide) i now
    · by_cases h2 : cmd = "mark-todo"
      · simp only [Manager.status, h1, h2]
        simpa using update_status_keeps_enum m h "todo" (by decide) i now
      · by_cases h3 : cmd = "mark-in-progress"
        · simp only [Manager.status, h1, h2, h3]
          simpa using update_status_keeps_enum m h "in-progress" (by decide) i now
        · simpa only [Manager.status, h1, h2, h3, if_neg] using h

/-- C4 (amended) at a concrete input. -/
theorem C4_status_enum_preserved_witness :
    (∀ d s id now, statusInvariant (emptyManager.add_task d s id now).2) ∧
    (∀ i, statusInvariant (emptyManager.delete_task i).2) ∧
    (∀ i cmd now, statusInvariant (emptyManager.status i cmd now).2) :=
  C4_status_enum_preserved emptyManager (by intro t ht; cases ht)

/-! ## C5 -/

/-- C5: `add(description, status)` fails with a validation error exactly when
the description is blank or the lower-cased status is not one of the
enumerated values, and on every such failure the in-memory collection and
the store are left unchanged. -/
theorem C5_add_validation (m : Manager) (d s id : String) (now : Nat) :
    ((∃ e, (m.add_task d s id now).1 = Except.error e) ↔
      (isBlank d = true ∨ lower s ∉ statusValues)) ∧
    ((isBlank d = true ∨ lower s ∉ statusValues) →
      (m.add_task d s id now).2 = m) := by
  by_cases h1 : isBlank d = true
  · simp [Manager.add_task, h1]
  · rw [Bool.not_eq_true] at h1
    by_cases h2 : lower s ∈ statusValues
    · simp [Manager.add_task, h1, h2]
    · simp [Manager.add_task, h1, h2]

/-- C5 at a concrete input: `add("   ")` fails and changes nothing. -/
theorem C5_add_validation_witness :
    (∃ e, (emptyManager.add_task "   " "todo" "u" 0).1 = Except.error e) ∧
    (emptyManager.add_task "   " "todo" "u" 0).2 = emptyManager :=
  ⟨(C5_add_validation emptyManager "   " "todo" "u" 0).1.mpr (Or.inl (by decide)),
   (C5_add_validation emptyManager "   " "todo" "u" 0).2 (Or.inl (by decide))⟩

/-- A list with a match splits at the first match. -/
theorem exists_first_split (i : Int) :
    ∀ l : List Task, (∃ t ∈ l, t.index = i) →
      ∃ pre t0 suf, l = pre ++ t0 :: suf ∧ t0.index = i ∧
        ∀ t ∈ pre, t.index ≠ i := by
  intro l
  induction l with
  | nil => intro h; simp at h
  | cons t ts ih =>
    intro h
    by_cases ht : t.index = i
    · exact ⟨[], t, ts, rfl, ht, by intro u hu; cases hu⟩
    · have h' : ∃ u ∈ ts, u.index = i := by
        rcases h with ⟨u, hu, hui⟩
        rcases List.mem_cons.mp hu with rfl | hmem
        · exact absurd hui ht
        · exact ⟨u, hmem, hui⟩
      rcases ih h' with ⟨pre, t0, suf, hsplit, h0, hpre⟩
      refine ⟨t :: pre, t0, suf, by rw [hsplit, List.cons_append], h0, ?_⟩
      intro u hu
      rcases List.mem_cons.mp hu with rfl | hmem
      · exact ht
      · exact hpre u hmem

/-- A delete that does not target the index of the collection's last element
preserves `lastIndex`, the basis of the next assignment. -/
theorem lastIndex_del (m : Manager) (i : Int) (hs : safeDel m i = true) :
    lastIndex (m.delete_task i).2 = lastIndex m := by
  by_cases hex : ∃ t ∈ m.tasks, t.index = i
  · rcases exists_first_split i m.tasks hex with ⟨pre, t0, suf, hsplit, h0, hpre⟩
    have hrem : removeFirst i m.tasks = some (t0, pre ++ suf) := by
      rw [hsplit]
      exact removeFirst_eq_some i pre suf t0 h0 hpre
    have hsufne : suf ≠ [] := by
      intro hnil
      subst hnil
      have hlast : m.tasks.getLast? = some t0 := by
        rw [hsplit]
        exact List.getLast?_concat pre
      simp only [safeDel, hlast, bne_iff_ne] at hs
      exact hs h0
    simp only [Manager.delete_task, hrem, Manager.save_tasks, lastIndex]
    rw [hsplit, List.getLast?_append_of_ne_nil pre hsufne,
      List.getLast?_append_of_ne_nil pre (List.cons_ne_nil t0 suf)]
    cases suf with
    | nil => exact absurd rfl hsufne
    | cons u us => rw [List.getLast?_cons_cons]
  · push_neg at hex
    have hrem : removeFirst i m.tasks = none :=
      removeFirst_eq_none i m.tasks fun t ht => hex t ht
    simp only [Manager.delete_task, hrem]

/-- The indices a run assigns, starting from an arbitrary state: with valid
adds and deletes that never remove the current last element, they are
`lastIndex + 1, lastIndex + 2, ...`. -/
theorem assignedIndices_run (ops : List Op) :
    ∀ m : Manager, validAdds ops = true → safeDeletes m ops = true →
      assignedIndices m ops = seqFrom (lastIndex m + 1) (countAdds ops) := by
  induction ops with
  | nil => intro m _ _; rfl
  | cons op rest ih =>
    intro m hv hs
    cases op with
    | addOp d s id now =>
      rw [validAdds, Bool.and_eq_true] at hv
      obtain ⟨hvd, hvr⟩ := hv
      have hsr : safeDeletes (stepOp m (.addOp d s id now)) rest = true := by
        simpa [safeDeletes] using hs
      have hlast : lastIndex (stepOp m (.addOp d s id now)) = lastIndex m + 1 :=
        lastIndex_add m d s id now hvd
      simp only [assignedIndices, countAdds, seqFrom, add_task_ok m d s id now hvd,
        ih (stepOp m (.addOp d s id now)) hvr hsr, hlast, addedTask,
        List.singleton_append]
    | delOp i =>
      rw [validAdds] at hv
      rw [safeDeletes, Bool.and_eq_true] at hs
      obtain ⟨hsd, hsr⟩ := hs
      have hlast : lastIndex (stepOp m (.delOp i)) = lastIndex m :=
        lastIndex_del m i hsd
      simp only [assignedIndices, countAdds,
        ih (stepOp m (.delOp i)) hv hsr, hlast]

/-! ## C1 -/

/-- C1 fails as stated: in the run add, add, delete(2), add from an empty
manager the assigned indices are 1, 2, 2 — not strictly increasing, and
index 2, though already assigned and then deleted, is assigned again. -/
theorem C1_counterexample :
    assignedIndices emptyManager
      [Op.addOp "first" "todo" "u1" 0, Op.addOp "second" "todo" "u2" 1,
       Op.delOp 2, Op.addOp "third" "todo" "u3" 2] = [1, 2, 2] ∧
    ¬ List.Pairwise (fun a b : Int => a < b)
      (assignedIndices emptyManager
        [Op.addOp "first" "todo" "u1" 0, Op.addOp "second" "todo" "u2" 1,
         Op.delOp 2, Op.addOp "third" "todo" "u3" 2]) := by
  decide

/-- C1 (amended): for every sequence of `add` calls with valid input, with
delete calls interleaved none of which removes the task currently last in
the collection, the indices assigned by `add` are the strictly increasing
integers 1, 2, ..., N with no gaps and no reuse.  (Deleting the current last
task makes `add` reuse its index: the next index is always last element's
index + 1.) -/
theorem C1_assigned_indices (ops : List Op)
    (hv : validAdds ops = true) (hs : safeDeletes emptyManager ops = true) :
    assignedIndices emptyManager ops = seqFrom 1 (countAdds ops) := by
  have h := assignedIndices_run ops emptyManager hv hs
  simpa [lastIndex, emptyManager] using h

/-- C1 (amended) at a concrete input: add, add, delete(1) — not the last
task — add, assigns 1, 2, 3. -/
theorem C1_assigned_indices_witness :
    validAdds
      [Op.addOp "first" "todo" "u1" 0, Op.addOp "second" "todo" "u2" 1,
       Op.delOp 1, Op.addOp "third" "todo" "u3" 2] = true ∧
    safeDeletes emptyManager
      [Op.addOp "first" "todo" "u1" 0, Op.addOp "second" "todo" "u2" 1,
       Op.delOp 1, Op.addOp "third" "todo" "u3" 2] = true ∧
    assignedIndices emptyManager
      [Op.addOp "first" "todo" "u1" 0, Op.addOp "second" "todo" "u2" 1,
       Op.delOp 1, Op.addOp "third" "todo" "u3" 2] =
      seqFrom 1 (countAdds
        [Op.addOp "first" "todo" "u1" 0, Op.addOp "second" "todo" "u2" 1,
         Op.delOp 1, Op.addOp "third" "todo" "u3" 2]) :=
  ⟨by decide, by decide,
   C1_assigned_indices
     [Op.addOp "first" "todo" "u1" 0, Op.addOp "second" "todo" "u2" 1,
      Op.delOp 1, Op.addOp "third" "todo" "u3" 2] (by decide) (by decide)⟩

/-! ## C6 -/

/-- C6: `delete(index)` on an absent index fails with the not-found error
naming the index and changes nothing; on a present index it removes exactly
the first task carrying it, persists, returns the removed task, and leaves
every remaining task (in particular its index) unchanged. -/
theorem C6_delete_spec (m : Manager) (i : Int) :
    ((∀ t ∈ m.tasks, t.index ≠ i) →
      m.delete_task i =
        (Except.error ("No task found with index " ++ toString i), m)) ∧
    (∀ pre t0 suf, m.tasks = pre ++ t0 :: suf → t0.index = i →
      (∀ t ∈ pre, t.index ≠ i) →
      m.delete_task i =
        (Except.ok t0,
         { tasks := pre ++ suf,
           store := .records ((pre ++ suf).map recordOfTask) })) := by
  constructor
  · intro habs
    simp only [Manager.delete_task, removeFirst_eq_none i m.tasks habs]
  · intro pre t0 suf hsplit h0 hpre
    have hrem : removeFirst i m.tasks = some (t0, pre ++ suf) := by
      rw [hsplit]
      exact removeFirst_eq_some i pre suf t0 h0 hpre
    simp only [Manager.delete_task, hrem, Manager.save_tasks]

/-- C6 at concrete inputs: deleting index 2 out of three tasks removes
exactly the middle one (no renumbering), deleting absent index 99 fails with
the not-found error and changes nothing. -/
theorem C6_delete_spec_witness :
    ({ tasks :=
        [{ description := "a", status := "todo", id := "u1", index := 1,
           createdAt := 0, updatedAt := 0 },
         { description := "b", status := "todo", id := "u2", index := 2,
           createdAt := 0, updatedAt := 0 },
         { description := "c", status := "todo", id := "u3", index := 3,
           createdAt := 0, updatedAt := 0 }],
       store := StoreContent.records [] } : Manager).delete_task 2 =
      (Except.ok { description := "b", status := "todo", id := "u2", index := 2,
                   createdAt := 0, updatedAt := 0 },
       { tasks :=
          [{ description := "a", status := "todo", id := "u1", index := 1,
             createdAt := 0, updatedAt := 0 }] ++
          [{ description := "c", status := "todo", id := "u3", index := 3,
             createdAt := 0, updatedAt := 0 }],
         store := .records
          ((([{ description := "a", status := "todo", id := "u1", index := 1,
                createdAt := 0, updatedAt := 0 }] ++
             [{ description := "c", status := "todo", id := "u3", index := 3,
                createdAt := 0, updatedAt := 0 }] : List Task)).map recordOfTask) }) ∧
    ({ tasks :=
        [{ description := "a", status := "todo", id := "u1", index := 1,
           createdAt := 0, updatedAt := 0 }],
       store := StoreContent.records [] } : Manager).delete_task 99 =
      (Except.error ("No task found with index " ++ toString (99 : Int)),
       { tasks :=
          [{ description := "a", status := "todo", id := "u1", index := 1,
             createdAt := 0, updatedAt := 0 }],
         store := StoreContent.records [] }) :=
  ⟨(C6_delete_spec _ 2).2
      [{ description := "a", status := "todo", id := "u1", index := 1,
         createdAt := 0, updatedAt := 0 }]
      { description := "b", status := "todo", id := "u2", index := 2,
        createdAt := 0, updatedAt := 0 }
      [{ description := "c", status := "todo", id := "u3", index := 3,
         createdAt := 0, updatedAt := 0 }]
      rfl rfl (by decide),
   (C6_delete_spec _ 99).1 (by decide)⟩

/-! ## C9 -/

/-- C9: a successful `update` applies exactly the provided fields
(lower-casing a provided status), stamps `updatedAt` with the current time
(hence, under a monotone clock, a value ≥ its prior value), persists, and
leaves `id`, `index`, `createdAt` and every unrequested field unchanged;
providing neither field still refreshes `updatedAt` and persists. -/
theorem C9_update_frame (m : Manager) (i : Int) (od os : Option String)
    (now : Nat) (pre suf : List Task) (t0 : Task)
    (hsplit : m.tasks = pre ++ t0 :: suf) (hidx : t0.index = i)
    (hpre : ∀ t ∈ pre, t.index ≠ i) (hclock : t0.updatedAt ≤ now) :
    m.update_task i od os now =
      (Except.ok (applyUpdate od os now t0),
       { tasks := pre ++ applyUpdate od os now t0 :: suf,
         store := .records
           ((pre ++ applyUpdate od os now t0 :: suf).map recordOfTask) }) ∧
    (applyUpdate od os now t0).id = t0.id ∧
    (applyUpdate od os now t0).index = t0.index ∧
    (applyUpdate od os now t0).createdAt = t0.createdAt ∧
    (od = none → (applyUpdate od os now t0).description = t0.description) ∧
    (∀ d, od = some d → (applyUpdate od os now t0).description = d) ∧
    (os = none → (applyUpdate od os now t0).status = t0.status) ∧
    (∀ s, os = some s → (applyUpdate od os now t0).status = lower s) ∧
    (applyUpdate od os now t0).updatedAt = now ∧
    t0.updatedAt ≤ (applyUpdate od os now t0).updatedAt := by
  have hupd : updateFirst i (applyUpdate od os now) m.tasks =
      some (applyUpdate od os now t0, pre ++ applyUpdate od os now t0 :: suf) := by
    rw [hsplit]
    exact updateFirst_eq_some i (applyUpdate od os now) pre suf t0 hidx hpre
  have hstamp : (applyUpdate od os now t0).updatedAt = now := by
    cases od <;> cases os <;> rfl
  refine ⟨?_, ?_, ?_, ?_, ?_, ?_, ?_, ?_, hstamp, ?_⟩
  · simp only [Manager.update_task, hupd, Manager.save_tasks]
  · cases od <;> cases os <;> rfl
  · cases od <;> cases os <;> rfl
  · cases od <;> cases os <;> rfl
  · intro h; subst h; cases os <;> rfl
  · intro d hd; subst hd; cases os <;> rfl
  · intro h; subst h; cases od <;> rfl
  · intro s hs; subst hs; cases od <;> rfl
  · rw [hstamp]; exact hclock

/-- C9 at a concrete input: an `update` providing neither field still
refreshes `updatedAt` (from 0 to 5, a value ≥ the prior one) and persists,
leaving everything else untouched. -/
theorem C9_update_frame_witness :
    ({ tasks :=
        [{ description := "a", status := "todo", id := "u", index := 1,
           createdAt := 0, updatedAt := 0 }],
       store := StoreContent.records [] } : Manager).update_task 1 none none 5 =
      (Except.ok (applyUpdate none none 5
        { description := "a", status := "todo", id := "u", index := 1,
          createdAt := 0, updatedAt := 0 }),
       { tasks := [] ++ applyUpdate none none 5
          { description := "a", status := "todo", id := "u", index := 1,
            createdAt := 0, updatedAt := 0 } :: [],
         store := .records (([] ++ applyUpdate none none 5
          { description := "a", status := "todo", id := "u", index := 1,
            createdAt := 0, updatedAt := 0 } :: []).map recordOfTask) }) ∧
    (applyUpdate none none 5
      { description := "a", status := "todo", id := "u", index := 1,
        createdAt := 0, updatedAt := 0 }).id = "u" ∧
    (applyUpdate none none 5
      { description := "a", status := "todo", id := "u", index := 1,
        createdAt := 0, updatedAt := 0 }).index = 1 ∧
    (applyUpdate none none 5
      { description := "a", status := "todo", id := "u", index := 1,
        createdAt := 0, updatedAt := 0 }).createdAt = 0 ∧
    (applyUpdate none none 5
      { description := "a", status := "todo", id := "u", index := 1,
        createdAt := 0, updatedAt := 0 }).description = "a" ∧
    (applyUpdate none none 5
      { description := "a", status := "todo", id := "u", index := 1,
        createdAt := 0, updatedAt := 0 }).status = "todo" ∧
    (applyUpdate none none 5
      { description := "a", status := "todo", id := "u", index := 1,
        createdAt := 0, updatedAt := 0 }).updatedAt = 5 ∧
    (0 : Nat) ≤ (applyUpdate none none 5
      { description := "a", status := "todo", id := "u", index := 1,
        createdAt := 0, updatedAt := 0 }).updatedAt := by
  have h := C9_update_frame
    { tasks :=
        [{ description := "a", status := "todo", id := "u", index := 1,
           createdAt := 0, updatedAt := 0 }],
      store := StoreContent.records [] } 1 none none 5 [] []
    { description := "a", status := "todo", id := "u", index := 1,
      createdAt := 0, updatedAt := 0 } rfl rfl (by decide) (by decide)
  exact ⟨h.1, h.2.1, h.2.2.1, h.2.2.2.1, h.2.2.2.2.1 rfl, h.2.2.2.2.2.2.1 rfl,
    h.2.2.2.2.2.2.2.2.1, h.2.2.2.2.2.2.2.2.2⟩

/-! ## C7 -/

/-- Serializing then deserializing a task restores it exactly, whatever
fresh identifier or clock value the deserialization would default to. -/
theorem taskOfRecord_recordOfTask (f : String) (n : Nat) (t : Task) :
    taskOfRecord f n (recordOfTask t) = t := rfl

/-- Loading the serialization of a collection restores it exactly. -/
theorem loadRecords_map (env : Nat → String) (now : Nat) :
    ∀ (l : List Task) (k : Nat), loadRecords env now k (l.map recordOfTask) = l := by
  intro l
  induction l with
  | nil => intro _; rfl
  | cons t ts ih =>
    intro k
    simp only [List.map_cons, loadRecords, taskOfRecord_recordOfTask, ih]

/-- A successful `add_task` leaves the store saved. -/
theorem add_task_saved (m : Manager) (d s id : String) (now : Nat)
    (h : validAdd d s = true) : Saved (m.add_task d s id now).2 := by
  rw [add_task_ok m d s id now h]
  rfl

/-- After a nonempty run of valid adds the store holds exactly the serialized
in-memory collection. -/
theorem runAdds_saved : ∀ (inputs : List AddInput) (m : Manager),
    inputs ≠ [] → validInputs inputs = true → Saved (runAdds m inputs) := by
  intro inputs
  induction inputs with
  | nil => intro m h _; exact absurd rfl h
  | cons a rest ih =>
    intro m _ hv
    rw [validInputs, Bool.and_eq_true] at hv
    obtain ⟨hva, hvr⟩ := hv
    cases rest with
    | nil =>
      simp only [runAdds]
      exact add_task_saved m a.description a.status a.id a.now hva
    | cons b bs =>
      simp only [runAdds]
      exact ih _ (List.cons_ne_nil b bs) hvr

/-- Loading a saved store restores the collection exactly. -/
theorem load_saved (m : Manager) (env : Nat → String) (now : Nat)
    (h : Saved m) : (load_tasks env now m.store).1 = m.tasks := by
  have h' : m.store = .records (m.tasks.map recordOfTask) := h
  rw [h']
  simp only [load_tasks, loadRecords_map]

/-- C7 fails as stated at N = 0: over a store holding a hand-edited record
that lacks `createdAt`, two constructions at different clock values fill in
different construction-time defaults, so the two collections differ in
`createdAt`. -/
theorem C7_counterexample :
    (mkManager (fun _ => "u") 0
      (StoreContent.records
        [{ description := "x", status := "todo", id := some "a", index := some 1,
           createdAt := none, updatedAt := none }])).tasks.map Task.createdAt = [0] ∧
    (mkManager (fun _ => "u") 1
      (StoreContent.records
        [{ description := "x", status := "todo", id := some "a", index := some 1,
           createdAt := none, updatedAt := none }])).tasks.map Task.createdAt = [1] ∧
    (mkManager (fun _ => "u") 0
      (StoreContent.records
        [{ description := "x", status := "todo", id := some "a", index := some 1,
           createdAt := none, updatedAt := none }])).tasks ≠
    (mkManager (fun _ => "u") 1
      (StoreContent.records
        [{ description := "x", status := "todo", id := some "a", index := some 1,
           createdAt := none, updatedAt := none }])).tasks := by
  decide

/-- C7 (amended): for every N ≥ 1, constructing a Manager over any store,
performing N successful adds, then constructing a fresh Manager against the
resulting store yields exactly the first Manager's collection — same tasks,
order, descriptions, statuses, indices, ids and timestamps — whatever
identifiers or clock the fresh construction uses.  (At N = 0 over a store
whose records lack optional fields, the two constructions may fill in
different generated ids and construction-time timestamps.) -/
theorem C7_round_trip (s : StoreContent) (env1 env2 : Nat → String)
    (now1 now2 : Nat) (inputs : List AddInput)
    (hne : inputs ≠ []) (hv : validInputs inputs = true) :
    (load_tasks env2 now2 (runAdds (mkManager env1 now1 s) inputs).store).1 =
      (runAdds (mkManager env1 now1 s) inputs).tasks :=
  load_saved _ env2 now2 (runAdds_saved inputs _ hne hv)

/-- C7 (amended) at a concrete input: one add over a fresh store, then a
reload with a different id environment and clock. -/
theorem C7_round_trip_witness :
    (load_tasks (fun _ => "w") 9
      (runAdds (mkManager (fun _ => "v") 0 (StoreContent.records []))
        [{ description := "buy milk", status := "todo", id := "u1", now := 1 }]).store).1 =
      (runAdds (mkManager (fun _ => "v") 0 (StoreContent.records []))
        [{ description := "buy milk", status := "todo", id := "u1", now := 1 }]).tasks :=
  C7_round_trip (StoreContent.records []) (fun _ => "v") (fun _ => "w") 0 9
    [{ description := "buy milk", status := "todo", id := "u1", now := 1 }]
    (by decide) (by decide)

/-! ## C8 -/

/-- C8: loading a store whose content is malformed (syntactically invalid)
yields an empty in-memory collection and overwrites the store with an empty
array, propagating no error. -/
theorem C8_corrupt_reset (env : Nat → String) (now : Nat) :
    load_tasks env now StoreContent.corrupt = ([], StoreContent.records []) := rfl

/-! ## C10 -/

/-- C10: the `status` operation dispatches on exact, case-sensitive equality
with `mark-done` / `mark-todo` / `mark-in-progress` before any index lookup;
any other command string yields the validation error (never a not-found
error, whatever the index) and leaves the collection and store unchanged. -/
theorem C10_status_command_validation (m : Manager) (i : Int) (cmd : String)
    (now : Nat) (h1 : cmd ≠ "mark-done") (h2 : cmd ≠ "mark-todo")
    (h3 : cmd ≠ "mark-in-progress") :
    m.status i cmd now =
      (Except.error ("Invalid status command: " ++ cmd), m) := by
  simp [Manager.status, h1, h2, h3]

/-- C10 at a concrete input: `status(1, "MARK-DONE")` on an empty collection
(index 1 absent) is the validation error, not a not-found error. -/
theorem C10_status_command_validation_witness :
    emptyManager.status 1 "MARK-DONE" 0 =
      (Except.error "Invalid status command: MARK-DONE", emptyManager) :=
  C10_status_command_validation emptyManager 1 "MARK-DONE" 0
    (by decide) (by decide) (by decide)

end TaskTracker
